import Mathlib

/-!
Verification of the shear-response post-processing pipeline of the
`terminal_groups_mixed` repository.

The post-processing code (`src/operations.py` and
`plotting/ransac/cof-Dinterdigitation.py`) loads whitespace-delimited
numeric tables with `np.loadtxt`, discards an initial fraction of the rows
(`data[int(len(data)*f):, col]` with f = 0.6 for structural/friction series
and f = 0.5 for energy series), averages the tail with `np.mean`, fits
friction force against normal load with `scipy.stats.linregress`, and stores
the results in the per-job document (a Python dict-like store).

The embedding below models the numeric values as exact rationals (`ℚ`).
`int(len(data)*f)` is modelled as the floor of the exact rational product,
`np.mean` of an empty slice as a distinguished NaN value (`none`), and the
Python exceptions the library calls can raise as an explicit error type.
Documents are insertion-ordered association lists with replace-on-assign,
matching Python dict semantics.
-/

/-- A numpy floating-point value: `some q` is the finite value `q`,
`none` is NaN (as produced by `np.mean` of an empty slice). -/
abbrev NpF := Option ℚ

/-- The Python exceptions that the modelled library calls can raise, plus the
two error kinds named by the design spec (`insufficientDataError`,
`degenerateInputError`), which no code in the repository ever raises. -/
inductive Err where
  | indexError             -- numpy IndexError (2-D index into a 1-D array, bad column)
  | valueError             -- scipy linregress ValueError (zero x-variance, bad shapes)
  | keyError               -- Python dict KeyError (missing document key)
  | typeError              -- TypeError (subscripting / subtracting a non-numeric value)
  | insufficientDataError  -- named by the spec only; never raised by this code
  | degenerateInputError   -- named by the spec only; never raised by this code
  deriving DecidableEq

deriving instance DecidableEq for Except

/-- The number of leading rows discarded by `data[int(len(data)*f):]`:
the floor of `len * f`, taken in exact rational arithmetic. -/
def skipCount (len : ℕ) (f : ℚ) : ℕ :=
  (⌊(len : ℚ) * f⌋).toNat

/-- The tail window `data[int(len(data)*f):]` kept after the equilibration skip. -/
def tailWindow (xs : List α) (f : ℚ) : List α :=
  xs.drop (skipCount xs.length f)

/-- `np.mean`: the arithmetic mean of a list of samples; NaN on an empty list. -/
def npMean (l : List ℚ) : NpF :=
  if l.isEmpty then none else some (l.sum / l.length)

/-- The population variance underlying `np.std`. The code stores the standard
deviation, i.e. the square root of this value; since squaring is injective on
nonnegative values, document entries are represented by the variance. -/
def npVar (l : List ℚ) : NpF :=
  if l.isEmpty then none
  else some ((l.map (fun x => (x - l.sum / l.length) ^ 2)).sum / l.length)

/-- Extract column `col` from a list of rows; a row without that column makes
numpy raise IndexError. -/
def colExtract (rows : List (List ℚ)) (col : ℕ) : Except Err (List ℚ) :=
  match rows with
  | [] => .ok []
  | row :: rest =>
    match row.get? col with
    | none => .error .indexError
    | some v => (colExtract rest col).map (fun vs => v :: vs)

/-- `data[int(len(data)*f):, col]` on the array returned by `np.loadtxt`.
`np.loadtxt` yields a 2-D array only for two or more rows; a zero-row or
one-row file gives a 1-D array, on which the 2-D index raises IndexError. -/
def tailSliceCol (data : List (List ℚ)) (f : ℚ) (col : ℕ) : Except Err (List ℚ) :=
  if data.length < 2 then .error .indexError
  else colExtract (tailWindow data f) col

/-- The tail-slice-and-mean reducer used by `calc_S2_shear`, `calc_tilt_shear`,
`calc_interdigitation`, `log_cof` and `_log_interaction_energy`:
`np.mean(data[int(len(data)*f):, col])`. -/
def reduceTail (data : List (List ℚ)) (f : ℚ) (col : ℕ) : Except Err NpF :=
  (tailSliceCol data f col).map npMean

/-- The minimum of a list of rationals (none on the empty list). -/
def listMin : List ℚ → Option ℚ
  | [] => none
  | x :: xs =>
    match listMin xs with
    | none => some x
    | some m => some (min x m)

/-- The maximum of a list of rationals (none on the empty list). -/
def listMax : List ℚ → Option ℚ
  | [] => none
  | x :: xs =>
    match listMax xs with
    | none => some x
    | some m => some (max x m)

/-- A value stored in a job document: a number, a load-keyed mapping of numbers
(`S2_bottom`, `interdigitation`, ...), or a (mean, spread) pair as written by
`_log_interaction_energy` (the spread slot holds the variance whose square root
the code stores; squaring is injective on nonnegative values). -/
inductive DVal where
  | num : NpF → DVal
  | map : List (String × NpF) → DVal
  | pair : NpF × NpF → DVal
  deriving DecidableEq

/-- A job document (and likewise the per-load dicts it stores): a Python dict,
i.e. an insertion-ordered association list where assignment replaces the value
of an existing key and otherwise appends. -/
def assocSet (d : List (String × α)) (k : String) (v : α) : List (String × α) :=
  match d with
  | [] => [(k, v)]
  | (k', v') :: rest => if k' = k then (k, v) :: rest else (k', v') :: assocSet rest k v

/-- Dict lookup, first matching key. -/
def assocFind (d : List (String × α)) (k : String) : Option α :=
  match d with
  | [] => none
  | (k', v) :: rest => if k' = k then some v else assocFind rest k

/-- The mutable per-job results store `job.document`. -/
abbrev Doc := List (String × DVal)

/-- The fixed load series `loads = [5, 15, 25]` (in nN) of the shear stages. -/
def loads : List ℕ := [5, 15, 25]

/-- The dict key `'{}nN'.format(load)`. -/
def loadKey (load : ℕ) : String := Nat.repr load ++ "nN"

/-- The second loop of `calc_S2_shear` / `calc_tilt_shear`: for each load, slice
the tail of columns 1 (bottom) and 2 (top) of the per-load file and store the
means in two dicts. `files load` is the content of the per-load data file. -/
def twoColLoop (ls : List ℕ) (files : ℕ → List (List ℚ))
    (db dt : List (String × NpF)) :
    Except Err (List (String × NpF) × List (String × NpF)) :=
  match ls with
  | [] => .ok (db, dt)
  | load :: rest =>
    match reduceTail (files load) (3/5) 1 with
    | .error e => .error e
    | .ok b =>
      match reduceTail (files load) (3/5) 2 with
      | .error e => .error e
      | .ok t => twoColLoop rest files (assocSet db (loadKey load) b) (assocSet dt (loadKey load) t)

/-- `calc_S2_shear`: build the bottom/top dicts over all loads, then write them
to `job.document` under `S2_bottom` and `S2_top`. The first loop (`_calc_S2`
per load) is an external analysis call that regenerates the data files read
here; `files` is what `np.loadtxt` then reads. Returns the resulting document
and the exception, if one was raised. -/
def calc_S2_shear_run (files : ℕ → List (List ℚ)) (doc : Doc) : Doc × Option Err :=
  match twoColLoop loads files [] [] with
  | .error e => (doc, some e)
  | .ok (db, dt) =>
    (assocSet (assocSet doc "S2_bottom" (.map db)) "S2_top" (.map dt), none)

/-- `calc_tilt_shear`: identical loop structure to `calc_S2_shear`, writing
`tilt_bottom` and `tilt_top`. -/
def calc_tilt_shear_run (files : ℕ → List (List ℚ)) (doc : Doc) : Doc × Option Err :=
  match twoColLoop loads files [] [] with
  | .error e => (doc, some e)
  | .ok (db, dt) =>
    (assocSet (assocSet doc "tilt_bottom" (.map db)) "tilt_top" (.map dt), none)

/-- The loop of `calc_interdigitation`: one dict from column 1 of each per-load
interdigitation file. -/
def oneColLoop (ls : List ℕ) (files : ℕ → List (List ℚ)) (d : List (String × NpF)) :
    Except Err (List (String × NpF)) :=
  match ls with
  | [] => .ok d
  | load :: rest =>
    match reduceTail (files load) (3/5) 1 with
    | .error e => .error e
    | .ok v => oneColLoop rest files (assocSet d (loadKey load) v)

/-- `calc_interdigitation`: build the per-load dict, then write it under
`interdigitation`. -/
def calc_interdigitation_run (files : ℕ → List (List ℚ)) (doc : Doc) : Doc × Option Err :=
  match oneColLoop loads files [] with
  | .error e => (doc, some e)
  | .ok m => (assocSet doc "interdigitation" (.map m), none)

/-- The accumulation loop of `log_cof`: `friction_forces.append(np.mean(...))`
per load. -/
def frictionLoop (ls : List ℕ) (files : ℕ → List (List ℚ)) (acc : List NpF) :
    Except Err (List NpF) :=
  match ls with
  | [] => .ok acc
  | load :: rest =>
    match reduceTail (files load) (3/5) 1 with
    | .error e => .error e
    | .ok m => frictionLoop rest files (acc ++ [m])

/-- The sample mean used inside `scipy.stats.linregress`. -/
def lrMean (l : List ℚ) : ℚ := l.sum / l.length

/-- The sum of squared x-deviations (`ssxm`, up to the 1/n factor) that
`linregress` tests against zero. -/
def lrSxx (xq : List ℚ) : ℚ := (xq.map (fun x => (x - lrMean xq) ^ 2)).sum

/-- The sum of xy cross-deviations. -/
def lrSxy (xq yq : List ℚ) : ℚ :=
  (List.zipWith (fun x y => (x - lrMean xq) * (y - lrMean yq)) xq yq).sum

/-- The ordinary least-squares slope. -/
def lrSlope (xq yq : List ℚ) : ℚ := lrSxy xq yq / lrSxx xq

/-- The ordinary least-squares intercept. -/
def lrIntercept (xq yq : List ℚ) : ℚ := lrMean yq - lrSlope xq yq * lrMean xq

/-- The finite values of a float list, or `none` if any entry is NaN. -/
def seqOpt : List NpF → Option (List ℚ)
  | [] => some []
  | none :: _ => none
  | some x :: rest => (seqOpt rest).map (fun l => x :: l)

/-- `scipy.stats.linregress` on float inputs that may contain NaN: mismatched
or empty inputs raise ValueError; a zero x-variance (all x values identical)
raises ValueError, since no unique line fit exists; a NaN among the x values
defeats that test (comparisons against NaN are false) and propagates to NaN
outputs, as does a NaN among the y values; otherwise the OLS slope and
intercept. -/
def linregressN (xs ys : List NpF) : Except Err (NpF × NpF) :=
  if xs.length = ys.length ∧ xs.length ≠ 0 then
    match seqOpt xs with
    | none => .ok (none, none)
    | some xq =>
      if lrSxx xq = 0 then .error .valueError
      else
        match seqOpt ys with
        | none => .ok (none, none)
        | some yq => .ok (some (lrSlope xq yq), some (lrIntercept xq yq))
  else .error .valueError

/-- The computation of `log_cof` before its document writes: the per-load
friction-force means, then `linregress(loads, friction_forces)`. -/
def log_cof_core (files : ℕ → List (List ℚ)) : Except Err (NpF × NpF) :=
  match frictionLoop loads files [] with
  | .error e => .error e
  | .ok ms => linregressN (loads.map (fun l => (some (l : ℚ) : NpF))) ms

/-- `log_cof`: run the regression and store slope under `COF` and intercept
under `intercept`. -/
def log_cof_run (files : ℕ → List (List ℚ)) (doc : Doc) : Doc × Option Err :=
  match log_cof_core files with
  | .error e => (doc, some e)
  | .ok (cof, inter) =>
    (assocSet (assocSet doc "COF" (.num cof)) "intercept" (.num inter), none)

/-- `_log_interaction_energy`: slice columns 1 (coulomb) and 2 (LJ) of the
energy file with skip fraction 0.5, form the elementwise total, then write the
three (mean, spread) pairs under `{name}-qq`, `{name}-lj`, `{name}-Etotal`. -/
def log_interaction_run (data : List (List ℚ)) (name : String) (doc : Doc) :
    Doc × Option Err :=
  match tailSliceCol data (1/2) 1 with
  | .error e => (doc, some e)
  | .ok coul =>
    match tailSliceCol data (1/2) 2 with
    | .error e => (doc, some e)
    | .ok lj =>
      let total := List.zipWith (· + ·) coul lj
      let d1 := assocSet doc (name ++ "-qq") (.pair (npMean coul, npVar coul))
      let d2 := assocSet d1 (name ++ "-lj") (.pair (npMean lj, npVar lj))
      let d3 := assocSet d2 (name ++ "-Etotal") (.pair (npMean total, npVar total))
      (d3, none)

/-- A signac job as seen by `cof-Dinterdigitation.py`: only its document is
read in the correlation loop. -/
structure Job where
  document : Doc

/-- NaN-propagating float subtraction. -/
def nsub (a b : NpF) : NpF :=
  match a, b with
  | some x, some y => some (x - y)
  | _, _ => none

/-- `job.document['interdigitation']['25nN'] - job.document['interdigitation']['5nN']`:
KeyError when a key is absent, TypeError when the stored value is not the
load-keyed mapping the subscript expects. -/
def jobDelta (j : Job) : Except Err NpF :=
  match assocFind j.document "interdigitation" with
  | none => .error .keyError
  | some (.map m) =>
    match assocFind m "25nN" with
    | none => .error .keyError
    | some hi =>
      match assocFind m "5nN" with
      | none => .error .keyError
      | some lo => .ok (nsub hi lo)
  | some _ => .error .typeError

/-- `job.document['COF']`: the stored value, whatever it is, appended to
`all_y` without further checks. -/
def jobCof (j : Job) : Except Err DVal :=
  match assocFind j.document "COF" with
  | none => .error .keyError
  | some v => .ok v

/-- One iteration of the correlation loop: the x sample then the y sample for
one job, in the order the script evaluates them. -/
def jobXY (j : Job) : Except Err (NpF × DVal) :=
  match jobDelta j with
  | .error e => .error e
  | .ok x =>
    match jobCof j with
    | .error e => .error e
    | .ok y => .ok (x, y)

/-- The `for job in project` loop building `all_x` and `all_y` by appending. -/
def buildXYAux (jobs : List Job) (ax : List NpF) (ay : List DVal) :
    Except Err (List NpF × List DVal) :=
  match jobs with
  | [] => .ok (ax, ay)
  | j :: rest =>
    match jobXY j with
    | .error e => .error e
    | .ok (x, y) => buildXYAux rest (ax ++ [x]) (ay ++ [y])

/-- `all_x` and `all_y` after the loop over the whole project. -/
def buildAll (jobs : List Job) : Except Err (List NpF × List DVal) :=
  buildXYAux jobs [] []

/-- `outlier_mask = np.logical_not(inlier_mask)` on the RANSAC inlier mask. -/
def outlierMask (inlier : List Bool) : List Bool :=
  inlier.map (fun b => !b)

/-- Concrete per-load data files used to instantiate the theorems: two rows,
three columns, with per-load tail means 1, 2, 3 in both value columns. -/
def filesA : ℕ → List (List ℚ) := fun load =>
  if load = 5 then [[0, 1, 1], [0, 1, 1]]
  else if load = 15 then [[0, 2, 2], [0, 2, 2]]
  else [[0, 3, 3], [0, 3, 3]]

/-- A concrete five-row, two-column series for instantiating the reducer
theorems. -/
def dataFive : List (List ℚ) := [[0, 1], [0, 2], [0, 3], [0, 4], [0, 5]]

/-- The load-keyed dict produced from `filesA`. -/
def dictA : List (String × NpF) := [("5nN", some 1), ("15nN", some 2), ("25nN", some 3)]

/-- A concrete job document for instantiating the cross-job correlation
theorems. -/
def jobB : Job :=
  ⟨[("interdigitation", .map [("5nN", some 2), ("15nN", some 3), ("25nN", some 4)]),
    ("COF", .num (some (1/10)))]⟩

/-- The only exception column extraction raises is IndexError. -/
theorem colExtract_err {rows : List (List ℚ)} {col : ℕ} {e : Err}
    (h : colExtract rows col = .error e) : e = .indexError := by
  induction rows with
  | nil => simp [colExtract] at h
  | cons row rest ih =>
    simp only [colExtract] at h
    split at h
    · exact (Except.error.inj h).symm
    · cases hc : colExtract rest col with
      | error e' =>
        rw [hc] at h
        simp only [Except.map] at h
        cases Except.error.inj h
        exact ih hc
      | ok vs =>
        rw [hc] at h
        simp [Except.map] at h

/-- Column extraction succeeds with one value per row. -/
theorem colExtract_length {rows : List (List ℚ)} {col : ℕ} {xs : List ℚ}
    (h : colExtract rows col = .ok xs) : xs.length = rows.length := by
  induction rows generalizing xs with
  | nil => simp [colExtract] at h; simp [h]
  | cons row rest ih =>
    simp only [colExtract] at h
    split at h
    · simp at h
    · cases hc : colExtract rest col with
      | error e' => rw [hc] at h; simp [Except.map] at h
      | ok vs =>
        rw [hc] at h
        simp only [Except.map] at h
        cases Except.ok.inj h
        simp [ih hc]

/-- The only exception the tail-slice step raises is IndexError. -/
theorem tailSliceCol_err {data : List (List ℚ)} {f : ℚ} {col : ℕ} {e : Err}
    (h : tailSliceCol data f col = .error e) : e = .indexError := by
  unfold tailSliceCol at h
  split at h
  · exact (Except.error.inj h).symm
  · exact colExtract_err h

/-- The only exception the tail-slice-and-mean reducer raises is IndexError. -/
theorem reduceTail_err {data : List (List ℚ)} {f : ℚ} {col : ℕ} {e : Err}
    (h : reduceTail data f col = .error e) : e = .indexError := by
  unfold reduceTail at h
  cases hc : tailSliceCol data f col with
  | error e' =>
    rw [hc] at h
    simp only [Except.map] at h
    exact (Except.error.inj h) ▸ tailSliceCol_err hc
  | ok xs => rw [hc] at h; simp [Except.map] at h

/-- A successful tail slice determines the reducer's value. -/
theorem reduceTail_ok {data : List (List ℚ)} {f : ℚ} {col : ℕ} {xs : List ℚ}
    (h : tailSliceCol data f col = .ok xs) :
    reduceTail data f col = .ok (npMean xs) := by
  simp [reduceTail, h, Except.map]

/-- `int(len*f) < len` whenever `len ≥ 1` and `f < 1`. -/
theorem skipCount_lt {len : ℕ} {f : ℚ} (hlen : 1 ≤ len) (hf1 : f < 1) :
    skipCount len f < len := by
  have h1 : ⌊(len : ℚ) * f⌋ < (len : ℤ) := by
    apply Int.floor_lt.mpr
    push_cast
    calc (len : ℚ) * f < (len : ℚ) * 1 := by
          apply mul_lt_mul_of_pos_left hf1
          exact_mod_cast hlen
    _ = (len : ℚ) := mul_one _
  unfold skipCount
  omega

/-- For a nonnegative skip fraction, `skipCount` is the integer floor of
`len * f`. -/
theorem skipCount_cast {len : ℕ} {f : ℚ} (hf0 : 0 ≤ f) :
    (skipCount len f : ℤ) = ⌊(len : ℚ) * f⌋ := by
  unfold skipCount
  apply Int.toNat_of_nonneg
  apply Int.floor_nonneg.mpr
  exact mul_nonneg (by positivity) hf0

/-- `listMin` returns a value on every nonempty list. -/
theorem listMin_of_ne_nil {l : List ℚ} (h : l ≠ []) : ∃ m, listMin l = some m := by
  cases l with
  | nil => exact absurd rfl h
  | cons x xs =>
    cases hx : listMin xs with
    | none => exact ⟨x, by simp [listMin, hx]⟩
    | some m => exact ⟨min x m, by simp [listMin, hx]⟩

/-- `listMax` returns a value on every nonempty list. -/
theorem listMax_of_ne_nil {l : List ℚ} (h : l ≠ []) : ∃ m, listMax l = some m := by
  cases l with
  | nil => exact absurd rfl h
  | cons x xs =>
    cases hx : listMax xs with
    | none => exact ⟨x, by simp [listMax, hx]⟩
    | some m => exact ⟨max x m, by simp [listMax, hx]⟩

/-- `listMin l = none` only on the empty list. -/
theorem listMin_eq_none {l : List ℚ} (h : listMin l = none) : l = [] := by
  cases l with
  | nil => rfl
  | cons x xs =>
    exfalso
    cases hx : listMin xs with
    | none => simp [listMin, hx] at h
    | some m => simp [listMin, hx] at h

/-- The minimum bounds every element from below. -/
theorem listMin_le {l : List ℚ} {m : ℚ} (h : listMin l = some m) :
    ∀ x ∈ l, m ≤ x := by
  induction l generalizing m with
  | nil => simp [listMin] at h
  | cons a t ih =>
    intro x hx
    simp only [listMin] at h
    cases ht : listMin t with
    | none =>
      rw [ht] at h
      cases Option.some.inj h
      have : t = [] := listMin_eq_none ht
      subst this
      simp at hx
      simp [hx]
    | some m' =>
      rw [ht] at h
      cases Option.some.inj h
      rcases List.mem_cons.mp hx with hxa | hxt
      · subst hxa; exact min_le_left _ _
      · exact le_trans (min_le_right _ _) (ih ht x hxt)

/-- `listMax l = none` only on the empty list. -/
theorem listMax_eq_none {l : List ℚ} (h : listMax l = none) : l = [] := by
  cases l with
  | nil => rfl
  | cons x xs =>
    exfalso
    cases hx : listMax xs with
    | none => simp [listMax, hx] at h
    | some m => simp [listMax, hx] at h

/-- The maximum bounds every element from above. -/
theorem le_listMax {l : List ℚ} {m : ℚ} (h : listMax l = some m) :
    ∀ x ∈ l, x ≤ m := by
  induction l generalizing m with
  | nil => simp [listMax] at h
  | cons a t ih =>
    intro x hx
    simp only [listMax] at h
    cases ht : listMax t with
    | none =>
      rw [ht] at h
      cases Option.some.inj h
      have : t = [] := listMax_eq_none ht
      subst this
      simp at hx
      simp [hx]
    | some m' =>
      rw [ht] at h
      cases Option.some.inj h
      rcases List.mem_cons.mp hx with hxa | hxt
      · subst hxa; exact le_max_left _ _
      · exact le_trans (ih ht x hxt) (le_max_right _ _)

/-- A uniform lower bound on the elements bounds the sum from below. -/
theorem length_mul_le_sum {l : List ℚ} {a : ℚ} (h : ∀ x ∈ l, a ≤ x) :
    (l.length : ℚ) * a ≤ l.sum := by
  induction l with
  | nil => simp
  | cons x t ih =>
    have hx := h x (List.mem_cons_self x t)
    have ht := ih (fun y hy => h y (List.mem_cons_of_mem _ hy))
    simp only [List.length_cons, List.sum_cons]
    have hexp : ((t.length + 1 : ℕ) : ℚ) * a = (t.length : ℚ) * a + a := by
      push_cast; ring
    rw [hexp]
    linarith

/-- A uniform upper bound on the elements bounds the sum from above. -/
theorem sum_le_length_mul {l : List ℚ} {b : ℚ} (h : ∀ x ∈ l, x ≤ b) :
    l.sum ≤ (l.length : ℚ) * b := by
  induction l with
  | nil => simp
  | cons x t ih =>
    have hx := h x (List.mem_cons_self x t)
    have ht := ih (fun y hy => h y (List.mem_cons_of_mem _ hy))
    simp only [List.length_cons, List.sum_cons]
    have hexp : ((t.length + 1 : ℕ) : ℚ) * b = (t.length : ℚ) * b + b := by
      push_cast; ring
    rw [hexp]
    linarith

/-- The mean of a nonempty list lies between its minimum and maximum. -/
theorem npMean_bounds {l : List ℚ} {lo hi : ℚ} (hne : l ≠ [])
    (hlo : listMin l = some lo) (hhi : listMax l = some hi) :
    npMean l = some (l.sum / l.length) ∧
    lo ≤ l.sum / l.length ∧ l.sum / l.length ≤ hi := by
  have hlen : 0 < l.length := List.length_pos.mpr hne
  have hlenq : (0 : ℚ) < (l.length : ℚ) := by exact_mod_cast hlen
  refine ⟨by simp [npMean, List.isEmpty_iff, hne], ?_, ?_⟩
  · rw [le_div_iff₀ hlenq]
    have := length_mul_le_sum (listMin_le hlo)
    linarith [this]
  · rw [div_le_iff₀ hlenq]
    have := sum_le_length_mul (le_listMax hhi)
    linarith [this]

/-- Setting a key and reading it back yields the written value. -/
theorem assocFind_assocSet_same (d : List (String × α)) (k : String) (v : α) :
    assocFind (assocSet d k v) k = some v := by
  induction d with
  | nil => simp [assocSet, assocFind]
  | cons p t ih =>
    obtain ⟨k', v'⟩ := p
    by_cases hk : k' = k
    · subst hk; simp [assocSet, assocFind]
    · simp [assocSet, assocFind, hk, ih]

/-- Setting one key leaves every other key's value unchanged. -/
theorem assocFind_assocSet_ne (d : List (String × α)) {k' k : String} (v : α)
    (hk : k' ≠ k) : assocFind (assocSet d k' v) k = assocFind d k := by
  induction d with
  | nil => simp [assocSet, assocFind, hk]
  | cons p t ih =>
    obtain ⟨k'', v''⟩ := p
    by_cases h2 : k'' = k'
    · subst h2
      simp [assocSet, assocFind, hk]
    · simp only [assocSet, if_neg h2, assocFind]
      by_cases h3 : k'' = k
      · simp [h3]
      · simp [h3, ih]

/-- Re-assigning the value a key already holds leaves the dict unchanged. -/
theorem assocSet_find_eq {d : List (String × α)} {k : String} {v : α}
    (h : assocFind d k = some v) : assocSet d k v = d := by
  induction d with
  | nil => simp [assocFind] at h
  | cons p t ih =>
    obtain ⟨k', v'⟩ := p
    by_cases hk : k' = k
    · subst hk
      simp only [assocFind, if_pos rfl] at h
      cases Option.some.inj h
      simp [assocSet]
    · simp only [assocFind, if_neg hk] at h
      simp [assocSet, hk, ih h]

/-- The only exception the modelled `linregress` raises is ValueError. -/
theorem linregressN_err {xs ys : List NpF} {e : Err}
    (h : linregressN xs ys = .error e) : e = .valueError := by
  unfold linregressN at h
  split at h
  · split at h
    · simp at h
    · split at h
      · exact (Except.error.inj h).symm
      · split at h
        · simp at h
        · simp at h
  · exact (Except.error.inj h).symm

/-- The loop of `log_cof` only raises IndexError. -/
theorem frictionLoop_err {ls : List ℕ} {files : ℕ → List (List ℚ)}
    {acc : List NpF} {e : Err} (h : frictionLoop ls files acc = .error e) :
    e = .indexError := by
  induction ls generalizing acc with
  | nil => simp [frictionLoop] at h
  | cons load rest ih =>
    simp only [frictionLoop] at h
    cases hr : reduceTail (files load) (3/5) 1 with
    | error e' =>
      rw [hr] at h
      cases Except.error.inj h
      exact reduceTail_err hr
    | ok m =>
      rw [hr] at h
      exact ih h

/-- A successful `jobXY` decomposes into its two document reads. -/
theorem jobXY_ok {j : Job} {x : NpF} {y : DVal} (h : jobXY j = .ok (x, y)) :
    jobDelta j = .ok x ∧ jobCof j = .ok y := by
  unfold jobXY at h
  cases hd : jobDelta j with
  | error e => rw [hd] at h; simp at h
  | ok x' =>
    rw [hd] at h
    cases hc : jobCof j with
    | error e => rw [hc] at h; simp at h
    | ok y' =>
      rw [hc] at h
      simp only [Except.ok.injEq, Prod.mk.injEq] at h
      obtain ⟨rfl, rfl⟩ := h
      exact ⟨rfl, rfl⟩

/-- A successful `jobDelta` is exactly the difference of the stored
interdigitation values at the highest and lowest load. -/
theorem jobDelta_ok {j : Job} {x : NpF} (h : jobDelta j = .ok x) :
    ∃ m hi lo, assocFind j.document "interdigitation" = some (.map m) ∧
      assocFind m "25nN" = some hi ∧ assocFind m "5nN" = some lo ∧
      x = nsub hi lo := by
  unfold jobDelta at h
  cases hf : assocFind j.document "interdigitation" with
  | none => rw [hf] at h; simp at h
  | some dv =>
    rw [hf] at h
    cases dv with
    | num v => simp at h
    | pair p => simp at h
    | map m =>
      dsimp only at h
      cases hhi : assocFind m "25nN" with
      | none => rw [hhi] at h; simp at h
      | some hi =>
        rw [hhi] at h
        dsimp only at h
        cases hlo : assocFind m "5nN" with
        | none => rw [hlo] at h; simp at h
        | some lo =>
          rw [hlo] at h
          dsimp only at h
          cases Except.ok.inj h
          exact ⟨m, hi, lo, rfl, hhi, hlo, rfl⟩

/-- A successful `jobCof` is exactly the stored `COF` value. -/
theorem jobCof_ok {j : Job} {y : DVal} (h : jobCof j = .ok y) :
    assocFind j.document "COF" = some y := by
  unfold jobCof at h
  cases hf : assocFind j.document "COF" with
  | none => rw [hf] at h; simp at h
  | some v =>
    rw [hf] at h
    cases Except.ok.inj h
    rfl

/-- Structure of a successful run of the `all_x`/`all_y` loop: the
accumulators are extended by one x and one y per job, in order. -/
theorem buildXYAux_ok {jobs : List Job} {ax xs : List NpF} {ay ys : List DVal}
    (h : buildXYAux jobs ax ay = .ok (xs, ys)) :
    ∃ xt yt, xs = ax ++ xt ∧ ys = ay ++ yt ∧
      xt.length = jobs.length ∧ yt.length = jobs.length ∧
      ∀ i j, jobs.get? i = some j →
        ∃ x y, jobXY j = .ok (x, y) ∧ xt.get? i = some x ∧ yt.get? i = some y := by
  induction jobs generalizing ax ay with
  | nil =>
    simp only [buildXYAux] at h
    cases Except.ok.inj h
    exact ⟨[], [], by simp, by simp, rfl, rfl, by intro i j hj; simp at hj⟩
  | cons j rest ih =>
    simp only [buildXYAux] at h
    cases hj : jobXY j with
    | error e => rw [hj] at h; simp at h
    | ok p =>
      obtain ⟨x, y⟩ := p
      rw [hj] at h
      obtain ⟨xt, yt, hxs, hys, hlx, hly, hidx⟩ := ih h
      refine ⟨x :: xt, y :: yt, ?_, ?_, by simp [hlx], by simp [hly], ?_⟩
      · rw [hxs, List.append_assoc]; rfl
      · rw [hys, List.append_assoc]; rfl
      · intro i j' hj'
        cases i with
        | zero =>
          simp only [List.get?] at hj'
          cases Option.some.inj hj'
          exact ⟨x, y, hj, rfl, rfl⟩
        | succ n =>
          simp only [List.get?] at hj'
          obtain ⟨x', y', hxy', hx', hy'⟩ := hidx n j' hj'
          exact ⟨x', y', hxy', hx', hy'⟩

/-- Evaluation: on a two-row file with skip fraction 0.6, the tail is the last
row and the mean is that row's entry. -/
theorem reduceTail_pair {r : List ℚ} {col : ℕ} {v : ℚ} (hv : r.get? col = some v) :
    reduceTail [r, r] (3/5) col = .ok (some v) := by
  have hsk : skipCount 2 (3/5) = 1 := by
    norm_num [skipCount]
  have hw : tailWindow [r, r] (3/5) = [r] := by
    unfold tailWindow
    rw [show ([r, r] : List (List ℚ)).length = 2 from rfl, hsk]
    rfl
  have hts : tailSliceCol [r, r] (3/5) col = .ok [v] := by
    unfold tailSliceCol
    rw [if_neg (by simp), hw]
    unfold colExtract
    rw [hv]
    rfl
  rw [reduceTail_ok hts]
  simp [npMean]

/-- Evaluation of the friction loop on the concrete files. -/
theorem frictionLoop_filesA : frictionLoop loads filesA [] = .ok [some 1, some 2, some 3] := by
  have h5 : reduceTail (filesA 5) (3/5) 1 = .ok (some 1) := reduceTail_pair rfl
  have h15 : reduceTail (filesA 15) (3/5) 1 = .ok (some 2) := reduceTail_pair rfl
  have h25 : reduceTail (filesA 25) (3/5) 1 = .ok (some 3) := reduceTail_pair rfl
  simp [frictionLoop, loads, h5, h15, h25]

/-- Evaluation of the two-column loop on the concrete files. -/
theorem twoColLoop_filesA : twoColLoop loads filesA [] [] = .ok (dictA, dictA) := by
  have h5a : reduceTail (filesA 5) (3/5) 1 = .ok (some 1) := reduceTail_pair rfl
  have h5b : reduceTail (filesA 5) (3/5) 2 = .ok (some 1) := reduceTail_pair rfl
  have h15a : reduceTail (filesA 15) (3/5) 1 = .ok (some 2) := reduceTail_pair rfl
  have h15b : reduceTail (filesA 15) (3/5) 2 = .ok (some 2) := reduceTail_pair rfl
  have h25a : reduceTail (filesA 25) (3/5) 1 = .ok (some 3) := reduceTail_pair rfl
  have h25b : reduceTail (filesA 25) (3/5) 2 = .ok (some 3) := reduceTail_pair rfl
  simp only [twoColLoop, loads, h5a, h5b, h15a, h15b, h25a, h25b]
  simp +decide [assocSet, loadKey, dictA]

/-- Evaluation of the one-column loop on the concrete files. -/
theorem oneColLoop_filesA : oneColLoop loads filesA [] = .ok dictA := by
  have h5 : reduceTail (filesA 5) (3/5) 1 = .ok (some 1) := reduceTail_pair rfl
  have h15 : reduceTail (filesA 15) (3/5) 1 = .ok (some 2) := reduceTail_pair rfl
  have h25 : reduceTail (filesA 25) (3/5) 1 = .ok (some 3) := reduceTail_pair rfl
  simp only [oneColLoop, loads, h5, h15, h25]
  simp +decide [assocSet, loadKey, dictA]

/-- Evaluation of the regression on loads 5, 15, 25 and means 1, 2, 3. -/
theorem linregressN_A :
    linregressN (loads.map (fun l => (some (l : ℚ) : NpF))) [some 1, some 2, some 3]
      = .ok (some (1/10), some (1/2)) := by
  have hlx : loads.map (fun l => (some (l : ℚ) : NpF)) = [some 5, some 15, some 25] := by
    simp [loads]
  have hmx : lrMean [(5 : ℚ), 15, 25] = 15 := by norm_num [lrMean]
  have hmy : lrMean [(1 : ℚ), 2, 3] = 2 := by norm_num [lrMean]
  have hsxx : lrSxx [(5 : ℚ), 15, 25] = 200 := by norm_num [lrSxx, hmx]
  have hsxy : lrSxy [(5 : ℚ), 15, 25] [1, 2, 3] = 20 := by norm_num [lrSxy, hmx, hmy]
  have hsl : lrSlope [(5 : ℚ), 15, 25] [1, 2, 3] = 1/10 := by
    rw [lrSlope, hsxx, hsxy]; norm_num
  have hin : lrIntercept [(5 : ℚ), 15, 25] [1, 2, 3] = 1/2 := by
    rw [lrIntercept, hsl, hmy, hmx]; norm_num
  rw [hlx]
  unfold linregressN
  rw [if_pos (by simp)]
  have hqx : seqOpt [some (5 : ℚ), some 15, some 25] = some [5, 15, 25] := rfl
  have hqy : seqOpt [some (1 : ℚ), some 2, some 3] = some [1, 2, 3] := rfl
  rw [hqx]
  dsimp only
  rw [if_neg (by rw [hsxx]; norm_num), hqy]
  dsimp only
  rw [hsl, hin]

/-- Evaluation of the whole `log_cof` computation on the concrete files. -/
theorem log_cof_core_filesA : log_cof_core filesA = .ok (some (1/10), some (1/2)) := by
  unfold log_cof_core
  rw [frictionLoop_filesA]
  dsimp only
  exact linregressN_A

/-- Claim C1, counterexample: on a zero-row series the reducer raises
IndexError (the 2-D index into the 1-D empty array `np.loadtxt` returns), not
the `InsufficientDataError` the claim asserts — no code in the repository
raises such an error. -/
theorem C1_counterexample :
    reduceTail [] (3/5) 1 = .error .indexError ∧
    reduceTail [] (3/5) 1 ≠ .error .insufficientDataError :=
  ⟨rfl, by decide⟩

/-- Claim C1, amended: on an input with zero rows the tail-slice-and-mean
reducer fails by raising IndexError; on no input does it fail with
`InsufficientDataError`, which the code never defines or raises. -/
theorem C1_amended (data : List (List ℚ)) (f : ℚ) (col : ℕ) :
    reduceTail data f col ≠ .error .insufficientDataError ∧
    (data = [] → reduceTail data f col = .error .indexError) := by
  constructor
  · intro h
    exact absurd (reduceTail_err h) (by decide)
  · intro h
    subst h
    rfl

/-- Claim C1, witness: the amended statement evaluated on the empty series. -/
theorem C1_witness :
    reduceTail [] (3/5) 1 ≠ .error .insufficientDataError ∧
    reduceTail [] (3/5) 1 = .error .indexError :=
  ⟨(C1_amended [] (3/5) 1).1, (C1_amended [] (3/5) 1).2 rfl⟩

/-- Claim C2, counterexample: on all-identical loads `[5, 5, 5]` the
regression fails with ValueError (scipy's zero-x-variance error), not the
`DegenerateInputError` the claim asserts — no code in the repository raises
such an error. -/
theorem C2_counterexample :
    linregressN [some 5, some 5, some 5] [some 1, some 2, some 3] = .error .valueError ∧
    linregressN [some 5, some 5, some 5] [some 1, some 2, some 3]
      ≠ .error .degenerateInputError := by
  have hm : lrMean [(5 : ℚ), 5, 5] = 5 := by norm_num [lrMean]
  have hs : lrSxx [(5 : ℚ), 5, 5] = 0 := by simp [lrSxx, hm]
  have h : linregressN [some 5, some 5, some 5] [some 1, some 2, some 3]
      = .error .valueError := by
    unfold linregressN
    rw [if_pos (by simp)]
    rw [show seqOpt [some (5 : ℚ), some 5, some 5] = some [5, 5, 5] from rfl]
    dsimp only
    rw [if_pos hs]
  exact ⟨h, by rw [h]; decide⟩

/-- Claim C2, amended: when every load value is the same constant the
regression call fails with ValueError (zero x-variance), never with
`DegenerateInputError`, which no input can produce; moreover `log_cof`
always regresses against the fixed distinct loads `[5, 15, 25]`, so the
degenerate case cannot arise there. -/
theorem C2_amended (xs ys : List NpF) (c : ℚ) (hlen : ys.length = 3) :
    linregressN [some c, some c, some c] ys = .error .valueError ∧
    linregressN xs ys ≠ .error .degenerateInputError ∧
    loads = [5, 15, 25] := by
  refine ⟨?_, ?_, rfl⟩
  · have hm : lrMean [c, c, c] = c := by
      simp [lrMean]
      ring
    have hs : lrSxx [c, c, c] = 0 := by simp [lrSxx, hm]
    unfold linregressN
    rw [if_pos (by simp [hlen])]
    rw [show seqOpt [some c, some c, some c] = some [c, c, c] from rfl]
    dsimp only
    rw [if_pos hs]
  · intro h
    exact absurd (linregressN_err h) (by decide)

/-- Claim C2, witness: the amended statement evaluated on constant loads 5
and means 1, 2, 3. -/
theorem C2_witness :
    linregressN [some 5, some 5, some 5] [some 1, some 2, some 3] = .error .valueError ∧
    linregressN [] [some 1, some 2, some 3] ≠ .error .degenerateInputError :=
  ⟨(C2_amended [] [some 1, some 2, some 3] 5 rfl).1,
   (C2_amended [] [some 1, some 2, some 3] 5 rfl).2.1⟩

/-- Claim C3: for a series of at least 5 rows and skip fraction f in [0,1),
the tail window has exactly `len - floor(len*f)` rows (`skipCount` is that
floor), the extracted column has the same length, and the mean the reducer
returns lies between the minimum and maximum of the tail slice. -/
theorem C3_reducer (data : List (List ℚ)) (f : ℚ) (col : ℕ) (xs : List ℚ)
    (h5 : 5 ≤ data.length) (hf0 : 0 ≤ f) (hf1 : f < 1)
    (hcol : tailSliceCol data f col = .ok xs) :
    (tailWindow data f).length = data.length - skipCount data.length f ∧
    (skipCount data.length f : ℤ) = ⌊(data.length : ℚ) * f⌋ ∧
    xs.length = data.length - skipCount data.length f ∧
    ∃ m lo hi, reduceTail data f col = .ok (some m) ∧
      listMin xs = some lo ∧ listMax xs = some hi ∧ lo ≤ m ∧ m ≤ hi := by
  have hlen1 : 1 ≤ data.length := by omega
  have hsk : skipCount data.length f < data.length := skipCount_lt hlen1 hf1
  have hwl : (tailWindow data f).length = data.length - skipCount data.length f := by
    simp [tailWindow]
  have hcol' : colExtract (tailWindow data f) col = .ok xs := by
    unfold tailSliceCol at hcol
    rw [if_neg (by omega)] at hcol
    exact hcol
  have hxl : xs.length = data.length - skipCount data.length f :=
    (colExtract_length hcol').trans hwl
  have hxs_ne : xs ≠ [] := by
    have hpos : 0 < xs.length := by omega
    exact List.length_pos.mp hpos
  obtain ⟨lo, hlo⟩ := listMin_of_ne_nil hxs_ne
  obtain ⟨hi, hhi⟩ := listMax_of_ne_nil hxs_ne
  obtain ⟨hmean, hlom, hmhi⟩ := npMean_bounds hxs_ne hlo hhi
  refine ⟨hwl, skipCount_cast hf0, hxl, xs.sum / xs.length, lo, hi, ?_, hlo, hhi, hlom, hmhi⟩
  rw [reduceTail_ok hcol, hmean]

/-- Claim C3, witness: the reducer evaluated on a concrete five-row series
with skip fraction 0.6 and column 1. -/
theorem C3_witness :
    (tailWindow dataFive (3/5)).length = dataFive.length - skipCount dataFive.length (3/5) ∧
    (skipCount dataFive.length (3/5) : ℤ) = ⌊(dataFive.length : ℚ) * (3/5)⌋ ∧
    ([4, 5] : List ℚ).length = dataFive.length - skipCount dataFive.length (3/5) ∧
    ∃ m lo hi, reduceTail dataFive (3/5) 1 = .ok (some m) ∧
      listMin [4, 5] = some lo ∧ listMax [4, 5] = some hi ∧ lo ≤ m ∧ m ≤ hi := by
  have hsk : skipCount 5 (3/5) = 3 := by
    norm_num [skipCount]
    decide
  have hcol : tailSliceCol dataFive (3/5) 1 = .ok [4, 5] := by
    have hw : tailWindow dataFive (3/5) = [[0, 4], [0, 5]] := by
      unfold tailWindow
      rw [show dataFive.length = 5 from rfl, hsk]
      rfl
    unfold tailSliceCol
    rw [if_neg (by norm_num [dataFive]), hw]
    rfl
  exact C3_reducer dataFive (3/5) 1 [4, 5] (by norm_num [dataFive]) (by norm_num)
    (by norm_num) hcol

/-- Claim C4: on loads [5, 15, 25] with per-load mean friction forces
[1, 2, 3], the least-squares fit returns slope (COF) exactly 1/10 and
intercept exactly 1/2 — both at the regression call and end-to-end through
`log_cof`'s document writes on files realizing those means. -/
theorem C4_regressor :
    linregressN (loads.map (fun l => (some (l : ℚ) : NpF))) [some 1, some 2, some 3]
      = .ok (some (1/10), some (1/2)) ∧
    log_cof_run filesA [] =
      ([("COF", .num (some (1/10))), ("intercept", .num (some (1/2)))], none) := by
  refine ⟨linregressN_A, ?_⟩
  unfold log_cof_run
  rw [log_cof_core_filesA]
  rfl

/-- Claim C5: the values stored under `COF` and `intercept` are exactly the
slope and intercept returned by the regression call — no rounding,
transformation, or substitution in between — and a successful run writes
no error. -/
theorem C5_roundtrip (files : ℕ → List (List ℚ)) (doc : Doc) (cof inter : NpF)
    (h : log_cof_core files = .ok (cof, inter)) :
    (log_cof_run files doc).2 = none ∧
    assocFind (log_cof_run files doc).1 "COF" = some (.num cof) ∧
    assocFind (log_cof_run files doc).1 "intercept" = some (.num inter) := by
  have hrun : log_cof_run files doc =
      (assocSet (assocSet doc "COF" (.num cof)) "intercept" (.num inter), none) := by
    unfold log_cof_run
    rw [h]
  rw [hrun]
  refine ⟨rfl, ?_, ?_⟩
  · rw [assocFind_assocSet_ne _ _ (by decide)]
    exact assocFind_assocSet_same _ _ _
  · exact assocFind_assocSet_same _ _ _

/-- Claim C5, witness: the round-trip property evaluated on the concrete
files with slope 1/10 and intercept 1/2. -/
theorem C5_witness :
    (log_cof_run filesA []).2 = none ∧
    assocFind (log_cof_run filesA []).1 "COF" = some (.num (some (1/10))) ∧
    assocFind (log_cof_run filesA []).1 "intercept" = some (.num (some (1/2))) :=
  C5_roundtrip filesA [] (some (1/10)) (some (1/2)) log_cof_core_filesA

/-- Claim C6: in the cross-job correlation loop, the i-th x sample is exactly
the i-th job's stored interdigitation at the highest load (`25nN`) minus its
stored interdigitation at the lowest load (`5nN`), and the i-th y sample is
exactly that job's stored `COF` value. -/
theorem C6_xy (jobs : List Job) (xs : List NpF) (ys : List DVal)
    (h : buildAll jobs = .ok (xs, ys)) :
    xs.length = jobs.length ∧ ys.length = jobs.length ∧
    ∀ i j, jobs.get? i = some j → ∃ x y,
      xs.get? i = some x ∧ ys.get? i = some y ∧
      (∃ m hi lo, assocFind j.document "interdigitation" = some (.map m) ∧
        assocFind m "25nN" = some hi ∧ assocFind m "5nN" = some lo ∧
        x = nsub hi lo) ∧
      assocFind j.document "COF" = some y := by
  unfold buildAll at h
  obtain ⟨xt, yt, hxs, hys, hlx, hly, hidx⟩ := buildXYAux_ok h
  simp only [List.nil_append] at hxs hys
  subst hxs
  subst hys
  refine ⟨hlx, hly, ?_⟩
  intro i j hj
  obtain ⟨x, y, hxy, hx, hy⟩ := hidx i j hj
  obtain ⟨hd, hc⟩ := jobXY_ok hxy
  obtain ⟨m, hi', lo, hfm, hfhi, hflo, hxe⟩ := jobDelta_ok hd
  exact ⟨x, y, hx, hy, ⟨m, hi', lo, hfm, hfhi, hflo, hxe⟩, jobCof_ok hc⟩

/-- Claim C6, witness: the correlation loop evaluated on one concrete job. -/
theorem C6_witness :
    ([some 2] : List NpF).length = [jobB].length ∧
    ([DVal.num (some (1/10))] : List DVal).length = [jobB].length ∧
    ∀ i j, [jobB].get? i = some j → ∃ x y,
      ([some 2] : List NpF).get? i = some x ∧
      ([DVal.num (some (1/10))] : List DVal).get? i = some y ∧
      (∃ m hi lo, assocFind j.document "interdigitation" = some (.map m) ∧
        assocFind m "25nN" = some hi ∧ assocFind m "5nN" = some lo ∧
        x = nsub hi lo) ∧
      assocFind j.document "COF" = some y := by
  have hb : buildAll [jobB] = .ok ([some 2], [DVal.num (some (1/10))]) := by
    have hd : jobDelta jobB = .ok (some 2) := by
      have : nsub (some 4) (some 2) = some 2 := by
        simp [nsub]
        norm_num
      simp +decide [jobDelta, jobB, assocFind, this]
    have hc : jobCof jobB = .ok (.num (some (1/10))) := by
      simp +decide [jobCof, jobB, assocFind]
    have hxy : jobXY jobB = .ok (some 2, .num (some (1/10))) := by
      unfold jobXY
      rw [hd]
      dsimp only
      rw [hc]
    unfold buildAll buildXYAux
    rw [hxy]
    rfl
  exact C6_xy [jobB] [some 2] [DVal.num (some (1/10))] hb

/-- Claim C7: the RANSAC inlier/outlier classification is a strict binary
partition — `outlier_mask` is the pointwise negation of `inlier_mask`, so a
sample is an inlier exactly when it is not an outlier. -/
theorem C7_partition (mask : List Bool) (i : ℕ) (b : Bool)
    (hb : mask.get? i = some b) :
    (outlierMask mask).length = mask.length ∧
    ∃ c, (outlierMask mask).get? i = some c ∧ (b = true ↔ ¬ c = true) := by
  refine ⟨by simp [outlierMask], !b, ?_, by cases b <;> simp⟩
  unfold outlierMask
  rw [List.get?_map, hb]
  rfl

/-- Claim C7, witness: the partition property evaluated on a concrete mask. -/
theorem C7_witness :
    (outlierMask [true, false]).length = ([true, false] : List Bool).length ∧
    ∃ c, (outlierMask [true, false]).get? 0 = some c ∧ (true = true ↔ ¬ c = true) :=
  C7_partition [true, false] 0 true rfl

/-- Claim C8: re-running a per-load aggregator on identical input files
leaves the stored mappings identical — the second run overwrites each key
with the same value and neither accumulates nor duplicates entries. Shown
for `calc_S2_shear` and `calc_interdigitation`. -/
theorem C8_idempotent (files gfiles : ℕ → List (List ℚ)) (doc gdoc d1 d2 : Doc)
    (h1 : calc_S2_shear_run files doc = (d1, none))
    (h2 : calc_interdigitation_run gfiles gdoc = (d2, none)) :
    calc_S2_shear_run files d1 = (d1, none) ∧
    calc_interdigitation_run gfiles d2 = (d2, none) := by
  constructor
  · cases hc : twoColLoop loads files [] [] with
    | error e =>
      unfold calc_S2_shear_run at h1
      rw [hc] at h1
      simp at h1
    | ok p =>
      obtain ⟨db, dt⟩ := p
      unfold calc_S2_shear_run at h1 ⊢
      rw [hc] at h1 ⊢
      dsimp only at h1 ⊢
      have hd1 : d1 = assocSet (assocSet doc "S2_bottom" (.map db)) "S2_top" (.map dt) :=
        ((Prod.mk.injEq _ _ _ _).mp h1).1.symm
      have hfb : assocFind d1 "S2_bottom" = some (.map db) := by
        rw [hd1, assocFind_assocSet_ne _ _ (by decide), assocFind_assocSet_same]
      have hft : assocFind d1 "S2_top" = some (.map dt) := by
        rw [hd1, assocFind_assocSet_same]
      rw [assocSet_find_eq hfb, assocSet_find_eq hft]
  · cases hc : oneColLoop loads gfiles [] with
    | error e =>
      unfold calc_interdigitation_run at h2
      rw [hc] at h2
      simp at h2
    | ok m =>
      unfold calc_interdigitation_run at h2 ⊢
      rw [hc] at h2 ⊢
      dsimp only at h2 ⊢
      have hd2 : d2 = assocSet gdoc "interdigitation" (.map m) :=
        ((Prod.mk.injEq _ _ _ _).mp h2).1.symm
      have hf : assocFind d2 "interdigitation" = some (.map m) := by
        rw [hd2, assocFind_assocSet_same]
      rw [assocSet_find_eq hf]

/-- Claim C8, witness: both aggregators re-run on the concrete files and the
document their first run produced. -/
theorem C8_witness :
    calc_S2_shear_run filesA [("S2_bottom", .map dictA), ("S2_top", .map dictA)]
      = ([("S2_bottom", .map dictA), ("S2_top", .map dictA)], none) ∧
    calc_interdigitation_run filesA [("interdigitation", .map dictA)]
      = ([("interdigitation", .map dictA)], none) := by
  have h1 : calc_S2_shear_run filesA []
      = ([("S2_bottom", DVal.map dictA), ("S2_top", DVal.map dictA)], none) := by
    unfold calc_S2_shear_run
    rw [twoColLoop_filesA]
    rfl
  have h2 : calc_interdigitation_run filesA []
      = ([("interdigitation", DVal.map dictA)], none) := by
    unfold calc_interdigitation_run
    rw [oneColLoop_filesA]
    rfl
  exact C8_idempotent filesA filesA [] []
    [("S2_bottom", .map dictA), ("S2_top", .map dictA)]
    [("interdigitation", .map dictA)] h1 h2

/-- Claim C9: every post-processing stage performs all its fallible reads and
reductions before its document writes, so a failing stage leaves the document
exactly as it was — writes are all-or-nothing per stage. Shown for all five
document-writing stages. -/
theorem C9_atomic (files : ℕ → List (List ℚ)) (edata : List (List ℚ))
    (name : String) (doc : Doc) :
    ((calc_S2_shear_run files doc).2.isSome → (calc_S2_shear_run files doc).1 = doc) ∧
    ((calc_tilt_shear_run files doc).2.isSome → (calc_tilt_shear_run files doc).1 = doc) ∧
    ((calc_interdigitation_run files doc).2.isSome →
      (calc_interdigitation_run files doc).1 = doc) ∧
    ((log_cof_run files doc).2.isSome → (log_cof_run files doc).1 = doc) ∧
    ((log_interaction_run edata name doc).2.isSome →
      (log_interaction_run edata name doc).1 = doc) := by
  refine ⟨?_, ?_, ?_, ?_, ?_⟩
  · intro h
    cases hc : twoColLoop loads files [] [] with
    | error e => simp [calc_S2_shear_run, hc]
    | ok p =>
      obtain ⟨db, dt⟩ := p
      simp [calc_S2_shear_run, hc] at h
  · intro h
    cases hc : twoColLoop loads files [] [] with
    | error e => simp [calc_tilt_shear_run, hc]
    | ok p =>
      obtain ⟨db, dt⟩ := p
      simp [calc_tilt_shear_run, hc] at h
  · intro h
    cases hc : oneColLoop loads files [] with
    | error e => simp [calc_interdigitation_run, hc]
    | ok m => simp [calc_interdigitation_run, hc] at h
  · intro h
    cases hc : log_cof_core files with
    | error e => simp [log_cof_run, hc]
    | ok p =>
      obtain ⟨cof, inter⟩ := p
      simp [log_cof_run, hc] at h
  · intro h
    unfold log_interaction_run at h ⊢
    cases hc : tailSliceCol edata (1/2) 1 with
    | error e => rfl
    | ok coul =>
      cases hl : tailSliceCol edata (1/2) 2 with
      | error e => rfl
      | ok lj =>
        rw [hc, hl] at h
        simp at h

/-- Claim C9, witness: every stage fails on empty input files and leaves the
initially empty document empty. -/
theorem C9_witness :
    (calc_S2_shear_run (fun _ => []) []).1 = ([] : Doc) ∧
    (calc_tilt_shear_run (fun _ => []) []).1 = ([] : Doc) ∧
    (calc_interdigitation_run (fun _ => []) []).1 = ([] : Doc) ∧
    (log_cof_run (fun _ => []) []).1 = ([] : Doc) ∧
    (log_interaction_run [] "shear_5nN" []).1 = ([] : Doc) :=
  ⟨(C9_atomic (fun _ => []) [] "shear_5nN" []).1 rfl,
   (C9_atomic (fun _ => []) [] "shear_5nN" []).2.1 rfl,
   (C9_atomic (fun _ => []) [] "shear_5nN" []).2.2.1 rfl,
   (C9_atomic (fun _ => []) [] "shear_5nN" []).2.2.2.1 rfl,
   (C9_atomic (fun _ => []) [] "shear_5nN" []).2.2.2.2 rfl⟩

/-- Claim C10: for every nonempty series and skip fraction below 1 (so in
particular 0.6 and 0.5), `int(len*f) < len`, hence the tail window is
nonempty and any successfully extracted tail column has a finite (non-NaN)
mean: the empty-tail case can only arise from a zero-row input. -/
theorem C10_nonempty_tail (data : List (List ℚ)) (f : ℚ) (hne : data ≠ [])
    (hf1 : f < 1) :
    skipCount data.length f < data.length ∧
    tailWindow data f ≠ [] ∧
    ∀ col v, tailSliceCol data f col = .ok v → ∃ q, npMean v = some q := by
  have hlen : 1 ≤ data.length := List.length_pos.mpr hne
  have hsk := skipCount_lt hlen hf1
  have hwl : (tailWindow data f).length = data.length - skipCount data.length f := by
    simp [tailWindow]
  refine ⟨hsk, ?_, ?_⟩
  · intro hempty
    rw [hempty] at hwl
    simp at hwl
    omega
  · intro col v hv
    unfold tailSliceCol at hv
    split at hv
    · simp at hv
    · have hvl : v.length = data.length - skipCount data.length f :=
        (colExtract_length hv).trans hwl
      have hvne : v ≠ [] := by
        have : 0 < v.length := by omega
        exact List.length_pos.mp this
      exact ⟨v.sum / v.length, by simp [npMean, List.isEmpty_iff, hvne]⟩

/-- Claim C10, witness: the nonempty-tail property evaluated on a one-row
series with skip fraction 0.6. -/
theorem C10_witness :
    skipCount ([[1]] : List (List ℚ)).length (3/5) < ([[1]] : List (List ℚ)).length ∧
    tailWindow ([[1]] : List (List ℚ)) (3/5) ≠ [] ∧
    ∀ col v, tailSliceCol [[1]] (3/5) col = .ok v → ∃ q, npMean v = some q :=
  C10_nonempty_tail [[1]] (3/5) (by simp) (by norm_num)
